import Mathlib

/-!
# Verification of the `dialects` PEG engine

A shallow embedding of the parsing engine in `dialects.go`: the mutually
recursive functions `findOne`, `findMany`, `findConstituents` and
`findConstituentseq`, together with the `Part` tree, the grammar data model
(`PartDefinition`) and the shared parser state (cursor, log line counter,
log buffer, model).

Embedding conventions, each mirroring a concrete feature of the source:

* Go's shared `*int` cursor and the `Log` fields become an explicit state
  record `St` threaded through every call; the caller-visible mutation of
  the Go pointer is the state returned by each function.
* Go's `[]*Part` return value becomes `List Part`; the `nil` slice that
  signals "no match" is the empty list.
* The functions recurse without any structural bound in Go (a left-recursive
  grammar loops forever), so each Lean function takes a fuel argument and
  returns `Option (List Part × St μ)`; `none` means the fuel ran out and has
  no Go counterpart — a real (terminating) Go execution is an evaluation
  that returns `some`.
* A compiled regular expression is external library code (Go's `regexp`
  package), not code of this repository; it is embedded as an oracle
  function `String → List String` standing for
  `FindStringSubmatch`: the list is empty when there is no match, otherwise
  its head is the full text of the leftmost match and the tail the
  submatches.  Go's per-parse compiled-pattern cache
  (`parser.compiledRegexes`) only memoizes `regexp.MustCompile`, which is
  deterministic, so the cache is semantically the identity and the oracle is
  stored directly on the rule.  `regex = none` models `Regex == ""`.
* Positions are character offsets; Go slices bytes, and the two coincide on
  ASCII input, which is all the inputs used here.
* Go's `Handler` receives `*Part` and the model `interface{}` and mutates
  the model in place; it is embedded as `Part → μ → Bool × μ`
  (mutation of the `Part` itself by a handler is not modelled; no claim
  depends on it).  The `Path` and `Parent` fields of `Part` are never
  assigned by the engine and are dropped.
-/

namespace Dialects

/-- Go byte-slice `s[:n]` (character-level; coincides on ASCII). -/
def strTake (s : String) (n : Nat) : String := ⟨s.data.take n⟩

/-- Go byte-slice `s[n:]` (character-level; coincides on ASCII). -/
def strDrop (s : String) (n : Nat) : String := ⟨s.data.drop n⟩

/-- Go `s[len(s)-n:]`. -/
def strTakeEnd (s : String) (n : Nat) : String := ⟨s.data.drop (s.data.length - n)⟩

/-- Go `s[:len(s)-n]`. -/
def strDropEnd (s : String) (n : Nat) : String := ⟨s.data.take (s.data.length - n)⟩

/-- Go `strings.Count(s, "\n")`: for a single-character needle this is the
number of newline characters in `s`. -/
def countNL (s : String) : Nat := s.data.countP (fun c => c == '\n')

/-- Parse-tree node, mirroring `type Part struct` in `dialects.go`.
`Path` and `Parent` are never written by the engine and are omitted. -/
inductive Part : Type where
  | mk : (name : String) → (startPos : Nat) → (endPos : Nat) →
      (ignore : Bool) → (value : String) → (constituents : List Part) → Part

def Part.name : Part → String
  | .mk n _ _ _ _ _ => n

def Part.startPos : Part → Nat
  | .mk _ s _ _ _ _ => s

def Part.endPos : Part → Nat
  | .mk _ _ e _ _ _ => e

def Part.ignore : Part → Bool
  | .mk _ _ _ i _ _ => i

def Part.value : Part → String
  | .mk _ _ _ _ v _ => v

def Part.constituents : Part → List Part
  | .mk _ _ _ _ _ c => c

/-- `part.EndPos = e` on an existing node (the assignment
`part.EndPos = *currentPosPointer` in `findOne`). -/
def Part.setEnd : Part → Nat → Part
  | .mk n s _ i v c, e => .mk n s e i v c

/-- Grammar rule, mirroring `type PartDefinition struct`.  `μ` is the
caller-owned model type (`interface{}` in Go). -/
structure PartDefinition (μ : Type) where
  description : String := ""
  ignore : Bool := false
  constituents : List (List String) := []
  handler : Option (Part → μ → Bool × μ) := none
  regex : Option (String → List String) := none
  validateMatch : Option (List String → Bool × String) := none
  formatMatch : Option (List String → String) := none

/-- The read-only part of `Parser`: the input string and the grammar
(`dialect.PartDefinitions`, as a total lookup function; Go's map lookup on a
missing key yields the zero `PartDefinition`, which the grammar author's
lookup function models by returning `{}` for unknown names). -/
structure Ctx (μ : Type) where
  input : String
  defs : String → PartDefinition μ

/-- The mutable parse state: the shared cursor `*currentPosPointer`, the
`Log` fields (`buffer`, `indent`, `indentLevel`, `currentLine`) and the
caller's model. -/
structure St (μ : Type) where
  pos : Nat
  buffer : String
  indent : String
  indentLevel : Nat
  currentLine : Nat
  model : μ

/-- The log line written when a terminal's validator rejects a match
(`findOne`, validator branch): rule name and current line, with the custom
message when one is supplied. -/
def logInvalid {μ : Type} (st : St μ) (partName msg : String) : St μ :=
  { st with buffer := st.buffer ++ strTake st.indent st.indentLevel ++
      "invalid " ++ partName ++ " starting on line " ++
      toString st.currentLine ++
      (if msg = "" then "" else ": " ++ msg) ++ "\n" }

/-- The indent adjustment and "missing" log line written when a required
constituent (bare or `+`) is absent (`findConstituentseq`). -/
def logMissing {μ : Type} (st : St μ) (cid : String) : St μ :=
  let st1 : St μ := { st with indentLevel := st.indentLevel - 2 }
  { st1 with buffer := st1.buffer ++ strTake st1.indent st1.indentLevel ++
      "missing " ++ cid ++ " on line " ++ toString st1.currentLine ++ "\n" }

/-- `if len(parts) > 0 && !parts[0].Ignore { Constituents = append(Constituents, parts...) }` -/
def addNonIgnored (acc ps : List Part) : List Part :=
  match ps with
  | [] => acc
  | p :: _ => if p.ignore then acc else acc ++ ps

mutual

/-- `findOne` from `dialects.go`: match one rule occurrence at the cursor.
Empty list = Go's `nil` (no match); `none` = fuel exhausted. -/
def findOne {μ : Type} (ctx : Ctx μ) : Nat → String → St μ → Option (List Part × St μ)
  | 0, _, _ => none
  | fuel + 1, partName, st =>
    -- exit early if position pointer is already at the end of the string
    if ctx.input.length = st.pos + 1 then some ([], st)
    else
      let pd := ctx.defs partName
      if pd.constituents.isEmpty then
        -- otherwise handle regex
        match pd.regex with
        | some rx =>
          let ms := rx (strDrop ctx.input st.pos)
          -- return nil if no matches
          if ms.isEmpty then some ([], st)
          else
            let validation : Bool × String :=
              match pd.validateMatch with
              | some v => v ms
              | none => (true, "")
            if validation.1 then
              let value :=
                match pd.formatMatch with
                | some fm => fm ms
                | none => ms.headD ""
              let newPos := st.pos + (ms.headD "").length
              some ([Part.mk partName st.pos newPos pd.ignore value []],
                { st with pos := newPos,
                          currentLine := st.currentLine + countNL (ms.headD "") })
            else some ([], logInvalid st partName validation.2)
        -- handle invalid case where definition has neither parts nor Regex
        | none => some ([], st)
      else
        -- find Constituents
        match findConstituents ctx fuel pd.constituents st with
        | none => none
        | some (cs, st1) =>
          -- handle no Constituents
          if cs.isEmpty then some ([], st1)
          else
            let part0 := Part.mk partName st.pos 0 pd.ignore "" cs
            match pd.handler with
            | some h =>
              let r := h part0 st1.model
              if r.1 then some ([part0.setEnd st1.pos], { st1 with model := r.2 })
              else some ([], { st1 with model := r.2 })
            | none => some ([part0.setEnd st1.pos], st1)

/-- `findMany` from `dialects.go`: repeat `findOne` until it fails,
accumulating the parts. -/
def findMany {μ : Type} (ctx : Ctx μ) : Nat → String → St μ → Option (List Part × St μ)
  | 0, _, _ => none
  | fuel + 1, partName, st =>
    match findOne ctx fuel partName st with
    | none => none
    | some (parts, st1) =>
      if parts.isEmpty then some ([], st1)
      else
        match findMany ctx fuel partName st1 with
        | none => none
        | some (more, st2) => some (parts ++ more, st2)

/-- `findConstituents` from `dialects.go`: ordered choice over the
alternative sequences, with the cursor and line counter snapshotted at entry
and restored after every failed alternative. -/
def findConstituents {μ : Type} (ctx : Ctx μ) :
    Nat → List (List String) → St μ → Option (List Part × St μ)
  | 0, _, _ => none
  | fuel + 1, seqs, st => findConstituentsAux ctx fuel st.pos st.currentLine seqs st

/-- The loop body of `findConstituents`: `tempPos`/`tempLine` are the entry
snapshot of the cursor and line counter. -/
def findConstituentsAux {μ : Type} (ctx : Ctx μ) :
    Nat → Nat → Nat → List (List String) → St μ → Option (List Part × St μ)
  | _, _, _, [], st => some ([], st)
  | 0, _, _, _ :: _, _ => none
  | fuel + 1, tempPos, tempLine, seq :: rest, st =>
    match findConstituentseq ctx fuel seq st with
    | none => none
    | some (ps, st1) =>
      -- if parts found, return result
      if ps.isEmpty then
        -- otherwise, reset position and try next sequence
        findConstituentsAux ctx fuel tempPos tempLine rest
          { st1 with pos := tempPos, currentLine := tempLine }
      else some (ps, st1)

/-- `findConstituentseq` from `dialects.go`: the log preamble (indent growth
check, sequence line, indent increase) followed by the constituent loop. -/
def findConstituentseq {μ : Type} (ctx : Ctx μ) :
    Nat → List String → St μ → Option (List Part × St μ)
  | 0, _, _ => none
  | fuel + 1, seq, st =>
    let st1 : St μ :=
      if st.indent.length < st.indentLevel then { st with indent := st.indent ++ st.indent }
      else st
    let entry := strTake st1.indent st1.indentLevel ++ String.intercalate ", " seq ++ "\n"
    let st2 : St μ := { st1 with buffer := st1.buffer ++ entry }
    let st3 : St μ := { st2 with indentLevel := st2.indentLevel + 2 }
    seqAux ctx fuel seq st3 []

/-- The `for _, constituentID := range Constituentseq` loop of
`findConstituentseq`, with `acc` the accumulated non-ignored constituents. -/
def seqAux {μ : Type} (ctx : Ctx μ) :
    Nat → List String → St μ → List Part → Option (List Part × St μ)
  | _, [], st, acc =>
    let st1 : St μ := { st with indentLevel := st.indentLevel - 2 }
    some (acc, { st1 with buffer := st1.buffer ++ strTake st1.indent st1.indentLevel ++ "found\n" })
  | 0, _ :: _, _, _ => none
  | fuel + 1, cid :: rest, st, acc =>
    let lastChar := strTakeEnd cid 1
    if lastChar = "+" then
      match findMany ctx fuel (strDropEnd cid 1) st with
      | none => none
      | some (ps, st1) =>
        -- if one or more required part not found, we're done
        if ps.isEmpty then some ([], logMissing st1 cid)
        else seqAux ctx fuel rest st1 (addNonIgnored acc ps)
    else if lastChar = "*" then
      match findMany ctx fuel (strDropEnd cid 1) st with
      | none => none
      | some (ps, st1) => seqAux ctx fuel rest st1 (addNonIgnored acc ps)
    else if lastChar = "?" then
      match findOne ctx fuel (strDropEnd cid 1) st with
      | none => none
      | some (ps, st1) => seqAux ctx fuel rest st1 (addNonIgnored acc ps)
    else
      match findOne ctx fuel cid st with
      | none => none
      | some (ps, st1) =>
        -- if required part not found, we're done
        if ps.isEmpty then some ([], logMissing st1 cid)
        else seqAux ctx fuel rest st1 (addNonIgnored acc ps)

end

/-- `(s[n:]).length = s.length - n`. -/
lemma strDrop_length (s : String) (n : Nat) : (strDrop s n).length = s.length - n := by
  show (s.data.drop n).length = s.data.length - n
  exact List.length_drop n s.data

/-- `(s[:n]).length = min n s.length`. -/
lemma strTake_length (s : String) (n : Nat) : (strTake s n).length = min n s.length := by
  show (s.data.take n).length = min n s.data.length
  exact List.length_take n s.data

/-- The `findConstituents` loop restores the entry snapshot of the cursor and
line counter whenever it returns the empty (no-match) list: the state it
hands back carries `tempPos` and `tempCurrentLine`. -/
lemma findConstituentsAux_nil_restores {μ : Type} (ctx : Ctx μ) :
    ∀ (seqs : List (List String)) (fuel tempPos tempLine : Nat) (st st1 : St μ),
    st.pos = tempPos → st.currentLine = tempLine →
    findConstituentsAux ctx fuel tempPos tempLine seqs st = some ([], st1) →
    st1.pos = tempPos ∧ st1.currentLine = tempLine := by
  intro seqs
  induction seqs with
  | nil =>
    intro fuel tp tl st st1 hp hl h
    simp only [findConstituentsAux, Option.some.injEq, Prod.mk.injEq] at h
    rw [← h.2, hp, hl]
    exact ⟨rfl, rfl⟩
  | cons seq rest ih =>
    intro fuel tp tl st st1 hp hl h
    cases fuel with
    | zero => simp [findConstituentsAux] at h
    | succ g =>
      simp only [findConstituentsAux] at h
      cases hseq : findConstituentseq ctx g seq st with
      | none => rw [hseq] at h; simp at h
      | some r =>
        rw [hseq] at h
        obtain ⟨ps, stx⟩ := r
        by_cases hps : ps.isEmpty
        · simp only [hps, if_true] at h
          exact ih g tp tl _ st1 rfl rfl h
        · simp only [hps, if_false, Bool.false_eq_true, Option.some.injEq, Prod.mk.injEq] at h
          simp [h.1] at hps

/-- A non-terminal `findOne` call whose constituents came back empty returns
the empty (no-match) list with whatever state `findConstituents` produced. -/
lemma findOne_noConstituents {μ : Type} (ctx : Ctx μ) (fuel : Nat) (partName : String)
    (st st1 : St μ)
    (hguard : ctx.input.length ≠ st.pos + 1)
    (hnt : (ctx.defs partName).constituents ≠ [])
    (hfc : findConstituents ctx fuel (ctx.defs partName).constituents st = some ([], st1)) :
    findOne ctx (fuel + 1) partName st = some ([], st1) := by
  have hne : (ctx.defs partName).constituents.isEmpty = false := by
    simp [List.isEmpty_eq_false, hnt]
  simp only [findOne, if_neg hguard, hne, Bool.false_eq_true, if_false, hfc, List.isEmpty_nil,
    if_true]

/-- C1: when every alternative sequence of a non-terminal rule fails,
`findOne` returns no match and the cursor and line counter are restored to
their entry values (the snapshot taken before the alternatives are tried). -/
theorem findOne_allAlternativesFail_restores {μ : Type} (ctx : Ctx μ) (fuel : Nat)
    (partName : String) (st st1 : St μ)
    (hguard : ctx.input.length ≠ st.pos + 1)
    (hnt : (ctx.defs partName).constituents ≠ [])
    (hfc : findConstituents ctx fuel (ctx.defs partName).constituents st = some ([], st1)) :
    findOne ctx (fuel + 1) partName st = some ([], st1) ∧
      st1.pos = st.pos ∧ st1.currentLine = st.currentLine := by
  refine ⟨findOne_noConstituents ctx fuel partName st st1 hguard hnt hfc, ?_⟩
  cases fuel with
  | zero => simp [findConstituents] at hfc
  | succ g =>
    simp only [findConstituents] at hfc
    exact findConstituentsAux_nil_restores ctx _ g st.pos st.currentLine st st1 rfl rfl hfc

/-- The shared initial parse state (`currentPos = 0`, fresh `Log` as built by
`Parse`: indent `"| | | | "`, indent level 0, line counter 1). -/
def st0 : St Unit :=
  { pos := 0, buffer := "", indent := "| | | | ", indentLevel := 0, currentLine := 1, model := () }

/-- Witness grammar for C1: `R` has two alternatives, `A Z` (which consumes
`a` and then fails on `Z`) and `B` (which fails outright) on input `"aq"`. -/
def gdefs1 : String → PartDefinition Unit := fun n =>
  if n = "A" then { regex := some (fun s => match s.data with | 'a' :: _ => ["a"] | _ => []) }
  else if n = "B" then { regex := some (fun s => match s.data with | 'b' :: _ => ["b"] | _ => []) }
  else if n = "Z" then { regex := some (fun s => match s.data with | 'z' :: _ => ["z"] | _ => []) }
  else if n = "R" then { constituents := [["A", "Z"], ["B"]] }
  else {}

def ctx1 : Ctx Unit := { input := "aq", defs := gdefs1 }

/-- The state in which the all-alternatives-fail run of `R` ends. -/
def st1c1 : St Unit :=
  ((findConstituents ctx1 9 (ctx1.defs "R").constituents st0).getD ([], st0)).2

theorem findOne_allAlternativesFail_restores_witness :
    ctx1.input.length ≠ st0.pos + 1 ∧ (ctx1.defs "R").constituents ≠ [] ∧
      findOne ctx1 10 "R" st0 = some ([], st1c1) ∧
      st1c1.pos = st0.pos ∧ st1c1.currentLine = st0.currentLine := by
  have h := findOne_allAlternativesFail_restores ctx1 9 "R" st0 st1c1
    (by decide) (by decide) rfl
  exact ⟨by decide, by decide, h.1, h.2.1, h.2.2⟩

/-- C4: with the cursor on the last character (the reference end-of-input
boundary `cursor == len(input) - 1`), `findOne` returns no match at once,
leaving the state untouched, whatever the rule resolves to. -/
theorem findOne_endOfInput {μ : Type} (ctx : Ctx μ) (fuel : Nat) (partName : String)
    (st : St μ) (hend : ctx.input.length = st.pos + 1) :
    findOne ctx (fuel + 1) partName st = some ([], st) := by
  simp [findOne, hend]

def ctx4 : Ctx Unit := { input := "abc", defs := gdefs1 }

theorem findOne_endOfInput_witness :
    ctx4.input.length = ({ st0 with pos := 2 } : St Unit).pos + 1 ∧
      findOne ctx4 1 "A" { st0 with pos := 2 } = some ([], { st0 with pos := 2 }) := by
  exact ⟨by decide, findOne_endOfInput ctx4 0 "A" { st0 with pos := 2 } (by decide)⟩

/-! ## C2: handler veto

In the source, `findOne` calls the handler after `findConstituents` and, on
`!ok`, returns `nil` without touching the cursor: there is no snapshot
before the handler and no restoration after it — the cursor stays wherever
the constituents left it, and only the enclosing `findConstituents` of the
parent rule restores. -/

/-- Witness grammar for C2: `R = T` with a handler that always vetoes; `T`
consumes the leading `a`. -/
def gdefs2 : String → PartDefinition Unit := fun n =>
  if n = "T" then { regex := some (fun s => match s.data with | 'a' :: _ => ["a"] | _ => []) }
  else if n = "R" then { constituents := [["T"]], handler := some (fun _ m => (false, m)) }
  else {}

def ctx2 : Ctx Unit := { input := "abc", defs := gdefs2 }

/-- C2, counterexample: on input `"abc"`, rule `R` matches `T` (consuming one
character), the handler vetoes, and `findOne` returns no match with the
cursor left at 1, not restored to its entry value 0: the engine takes no
snapshot before invoking the handler. -/
theorem handler_veto_no_restore_counterexample :
    st0.pos = 0 ∧
      ((findOne ctx2 8 "R" st0).map fun r => (r.1.length, r.2.pos)) = some (0, 1) :=
  ⟨rfl, rfl⟩

/-- C2, amended: when the constituents of a non-terminal match but the
handler returns `false`, the whole rule occurrence is no match, and the
cursor is left exactly where the constituents finished (state `st1`): the
engine neither snapshots before the handler nor restores after its failure;
only the model update made by the handler is kept. -/
theorem findOne_handlerVeto {μ : Type} (ctx : Ctx μ) (fuel : Nat) (partName : String)
    (st st1 : St μ) (cs : List Part) (hdl : Part → μ → Bool × μ)
    (hguard : ctx.input.length ≠ st.pos + 1)
    (hnt : (ctx.defs partName).constituents ≠ [])
    (hfc : findConstituents ctx fuel (ctx.defs partName).constituents st = some (cs, st1))
    (hcs : cs ≠ [])
    (hh : (ctx.defs partName).handler = some hdl)
    (hveto : (hdl (Part.mk partName st.pos 0 (ctx.defs partName).ignore "" cs) st1.model).1
      = false) :
    findOne ctx (fuel + 1) partName st =
      some ([], { st1 with
        model := (hdl (Part.mk partName st.pos 0 (ctx.defs partName).ignore "" cs)
          st1.model).2 }) := by
  have hne : (ctx.defs partName).constituents.isEmpty = false := by
    simp [List.isEmpty_eq_false, hnt]
  have hcse : cs.isEmpty = false := by simp [List.isEmpty_eq_false, hcs]
  simp only [findOne, if_neg hguard, hne, Bool.false_eq_true, if_false, hfc, hcse, hh, hveto]

/-- The state in which the structural match of `R`'s constituents ends
(cursor advanced past the consumed `a`). -/
def st1c2 : St Unit :=
  ((findConstituents ctx2 7 (ctx2.defs "R").constituents st0).getD ([], st0)).2

theorem findOne_handlerVeto_witness :
    ctx2.input.length ≠ st0.pos + 1 ∧ (ctx2.defs "R").constituents ≠ [] ∧
      findOne ctx2 8 "R" st0 = some ([], st1c2) ∧ st1c2.pos = 1 ∧ st0.pos = 0 := by
  have h := findOne_handlerVeto ctx2 7 "R" st0 st1c2
    (((findConstituents ctx2 7 (ctx2.defs "R").constituents st0).getD ([], st0)).1)
    (fun _ m => (false, m)) (by decide) (by decide) rfl
    (List.ne_nil_of_length_pos (by decide)) rfl rfl
  exact ⟨by decide, by decide, h, rfl, rfl⟩

/-! ## C3: terminal matching is a leftmost search, not anchored

`findOne` passes `input[cursor:]` to Go's `FindStringSubmatch`, which
returns the *leftmost* match anywhere in that string; nothing anchors the
match at the cursor.  The cursor is then advanced by the length of the
matched text, wherever that text was found. -/

/-- Leftmost maximal digit run in a character list (`none` when there is no
digit). -/
def goFindDigitsAux : List Char → Option (List Char)
  | [] => none
  | c :: rest =>
    if c.isDigit then some (c :: rest.takeWhile Char.isDigit) else goFindDigitsAux rest

/-- Models Go `regexp.FindStringSubmatch` for the pattern `[0-9]+` (no `^`):
the full text of the leftmost match is the leftmost maximal run of digits
anywhere in the searched string — Go's regex search is leftmost, not
anchored at offset 0. -/
def goFindDigits (s : String) : List String :=
  match goFindDigitsAux s.data with
  | none => []
  | some run => [⟨run⟩]

def ctx3 : Ctx Unit :=
  { input := "ab12", defs := fun n => if n = "NUM" then { regex := some goFindDigits } else {} }

/-- C3, counterexample: terminal `NUM` with regex `[0-9]+` on input `"ab12"`
at cursor 0.  The regex matches (`"12"`, found at offset 2 of the remaining
input), `findOne` accepts it, stores value `"12"` and advances the cursor by
2 — but the consumed range `input[0:2]` is `"ab"`, not the matched text:
the match was not anchored at the cursor's offset. -/
theorem terminal_not_anchored_counterexample :
    ((findOne ctx3 2 "NUM" st0).map fun r =>
        (r.1.map fun p => (p.name, p.startPos, p.endPos, p.value), r.2.pos)) =
      some ([("NUM", 0, 2, "12")], 2) ∧
    strTake (strDrop ctx3.input 0) 2 = "ab" ∧ ("ab" : String) ≠ "12" :=
  ⟨rfl, rfl, by decide⟩

/-- The validator gate of a terminal rule: absent, or accepting. -/
def validatorAccepts {μ : Type} (pd : PartDefinition μ) (ms : List String) : Prop :=
  match pd.validateMatch with
  | some v => (v ms).1 = true
  | none => True

/-- The value stored on a terminal node: the formatter's result, or the full
matched text when no formatter is set. -/
def formattedValue {μ : Type} (pd : PartDefinition μ) (ms : List String) : String :=
  match pd.formatMatch with
  | some fm => fm ms
  | none => ms.headD ""

/-- C3, amended: the compiled regex is applied to the remaining input
`input[cursor:]` by leftmost search (anchoring is the grammar author's job,
via `^` in the pattern).  If it finds no match, `findOne` returns no match
with the state untouched.  On an accepted match, the node's value is the
formatter's result (or the full matched text), the cursor advances by
exactly the matched text's length, the line counter grows by the number of
newlines in the matched text, and `StartPos`/`EndPos` span exactly the
consumed range. -/
theorem findOne_terminal_spec {μ : Type} (ctx : Ctx μ) (fuel : Nat) (partName : String)
    (st : St μ) (rx : String → List String)
    (hguard : ctx.input.length ≠ st.pos + 1)
    (hterm : (ctx.defs partName).constituents = [])
    (hrx : (ctx.defs partName).regex = some rx) :
    (rx (strDrop ctx.input st.pos) = [] → findOne ctx (fuel + 1) partName st = some ([], st)) ∧
    (∀ ms, rx (strDrop ctx.input st.pos) = ms → ms ≠ [] →
      validatorAccepts (ctx.defs partName) ms →
      findOne ctx (fuel + 1) partName st =
        some ([Part.mk partName st.pos (st.pos + (ms.headD "").length)
            (ctx.defs partName).ignore (formattedValue (ctx.defs partName) ms) []],
          { st with pos := st.pos + (ms.headD "").length,
                    currentLine := st.currentLine + countNL (ms.headD "") })) := by
  have hec : (ctx.defs partName).constituents.isEmpty = true := by simp [hterm]
  constructor
  · intro hnone
    simp only [findOne, if_neg hguard, hec, if_true, hrx, hnone, List.isEmpty_nil]
  · intro ms hms hne hacc
    have hmse : ms.isEmpty = false := by simp [List.isEmpty_eq_false, hne]
    have hval : (match (ctx.defs partName).validateMatch with
        | some v => v ms
        | none => ((true : Bool), ("" : String))).1 = true := by
      unfold validatorAccepts at hacc
      cases hv : (ctx.defs partName).validateMatch with
      | none => simp
      | some v => rw [hv] at hacc; simpa using hacc
    simp only [findOne, if_neg hguard, hec, if_true, hrx, hms, hmse, Bool.false_eq_true,
      if_false, hval, formattedValue]

def ctx3w : Ctx Unit :=
  { input := "cc12xy",
    defs := fun n =>
      if n = "NUM" then
        { regex := some goFindDigits, formatMatch := some (fun ms => "#" ++ ms.headD "") }
      else {} }

theorem findOne_terminal_spec_witness :
    ctx3w.input.length ≠ st0.pos + 1 ∧ (ctx3w.defs "NUM").constituents = [] ∧
      goFindDigits (strDrop ctx3w.input st0.pos) = ["12"] ∧
      validatorAccepts (ctx3w.defs "NUM") ["12"] ∧
      findOne ctx3w 5 "NUM" st0 =
        some ([Part.mk "NUM" 0 2 false "#12" []],
          { st0 with pos := 2, currentLine := 1 }) := by
  have h := (findOne_terminal_spec ctx3w 4 "NUM" st0 goFindDigits
    (by decide) rfl rfl).2 ["12"] rfl (by decide) trivial
  exact ⟨by decide, rfl, rfl, trivial, h⟩

/-! ## C5: quantifier semantics in the sequence loop -/

/-- C5: in the constituent loop of `findConstituentseq`,
a `*` constituent that matches zero times does not fail the sequence (the
loop continues, contributing nothing); a `?` constituent never fails the
sequence (the loop continues whatever `findOne` returned); a `+` constituent
with zero matches fails the sequence, which returns no match; and a bare
(exactly-one) constituent that fails makes the sequence return no match
immediately — the result is the same for every tail `rest`, so no later
constituent is attempted. -/
theorem seq_quantifier_semantics {μ : Type} (ctx : Ctx μ) :
    (∀ (fuel : Nat) (cid : String) (rest : List String) (st st1 : St μ) (acc : List Part),
      strTakeEnd cid 1 = "*" →
      findMany ctx fuel (strDropEnd cid 1) st = some ([], st1) →
      seqAux ctx (fuel + 1) (cid :: rest) st acc = seqAux ctx fuel rest st1 acc) ∧
    (∀ (fuel : Nat) (cid : String) (rest : List String) (st st1 : St μ) (acc ps : List Part),
      strTakeEnd cid 1 = "?" →
      findOne ctx fuel (strDropEnd cid 1) st = some (ps, st1) →
      seqAux ctx (fuel + 1) (cid :: rest) st acc =
        seqAux ctx fuel rest st1 (addNonIgnored acc ps)) ∧
    (∀ (fuel : Nat) (cid : String) (rest : List String) (st st1 : St μ) (acc : List Part),
      strTakeEnd cid 1 = "+" →
      findMany ctx fuel (strDropEnd cid 1) st = some ([], st1) →
      seqAux ctx (fuel + 1) (cid :: rest) st acc = some ([], logMissing st1 cid)) ∧
    (∀ (fuel : Nat) (cid : String) (rest : List String) (st st1 : St μ) (acc : List Part),
      strTakeEnd cid 1 ≠ "+" → strTakeEnd cid 1 ≠ "*" → strTakeEnd cid 1 ≠ "?" →
      findOne ctx fuel cid st = some ([], st1) →
      seqAux ctx (fuel + 1) (cid :: rest) st acc = some ([], logMissing st1 cid)) := by
  refine ⟨?_, ?_, ?_, ?_⟩
  · intro fuel cid rest st st1 acc hq h
    simp [seqAux, hq, h, addNonIgnored]
  · intro fuel cid rest st st1 acc ps hq h
    simp [seqAux, hq, h]
  · intro fuel cid rest st st1 acc hq h
    simp [seqAux, hq, h]
  · intro fuel cid rest st st1 acc h1 h2 h3 h
    simp [seqAux, h1, h2, h3, h]

/-- Witness grammar for C5: terminal `A` matching a leading `a`, input
`"bbb"`, on which `A` never matches. -/
def ctx5 : Ctx Unit :=
  { input := "bbb",
    defs := fun n =>
      if n = "A" then
        { regex := some (fun s => match s.data with | 'a' :: _ => ["a"] | _ => []) }
      else {} }

theorem seq_quantifier_semantics_witness :
    (strTakeEnd "A*" 1 = "*" ∧
      seqAux ctx5 4 ["A*", "A?"] st0 [] = seqAux ctx5 3 ["A?"] st0 []) ∧
    (strTakeEnd "A?" 1 = "?" ∧
      seqAux ctx5 4 ["A?"] st0 [] = seqAux ctx5 3 [] st0 (addNonIgnored [] [])) ∧
    (strTakeEnd "A+" 1 = "+" ∧
      seqAux ctx5 4 ["A+", "A?"] st0 [] = some ([], logMissing st0 "A+")) ∧
    (strTakeEnd "A" 1 ≠ "+" ∧
      seqAux ctx5 4 ["A", "A?"] st0 [] = some ([], logMissing st0 "A")) := by
  refine ⟨⟨by decide, ?_⟩, ⟨by decide, ?_⟩, ⟨by decide, ?_⟩, ⟨by decide, ?_⟩⟩
  · exact (seq_quantifier_semantics ctx5).1 3 "A*" ["A?"] st0 st0 [] (by decide) rfl
  · exact (seq_quantifier_semantics ctx5).2.1 3 "A?" [] st0 st0 [] [] (by decide) rfl
  · exact (seq_quantifier_semantics ctx5).2.2.1 3 "A+" ["A?"] st0 st0 [] (by decide) rfl
  · exact (seq_quantifier_semantics ctx5).2.2.2 3 "A" ["A?"] st0 st0 []
      (by decide) (by decide) (by decide) rfl

/-! ## C6: ordered choice -/

/-- C6: the alternatives of a non-terminal are tried in declaration order and
the first alternative whose sequence matches (returns a non-empty part list)
wins: the rule's result is that alternative's result, identical for every
list `rest` of later alternatives, which are therefore not attempted.  When
the first alternative fails, the loop continues with the remaining
alternatives from the restored entry snapshot. -/
theorem findConstituents_orderedChoice {μ : Type} (ctx : Ctx μ) (fuel : Nat)
    (seq : List String) (rest : List (List String)) (st st1 : St μ) (ps : List Part)
    (h : findConstituentseq ctx fuel seq st = some (ps, st1)) :
    (ps ≠ [] → findConstituents ctx (fuel + 2) (seq :: rest) st = some (ps, st1)) ∧
    (ps = [] → findConstituents ctx (fuel + 2) (seq :: rest) st =
      findConstituentsAux ctx fuel st.pos st.currentLine rest
        { st1 with pos := st.pos, currentLine := st.currentLine }) := by
  constructor
  · intro hne
    have hpse : ps.isEmpty = false := by simp [List.isEmpty_eq_false, hne]
    simp only [findConstituents, findConstituentsAux, h, hpse, Bool.false_eq_true, if_false]
  · intro hnil
    subst hnil
    simp only [findConstituents, findConstituentsAux, h, List.isEmpty_nil, if_true]

/-- Witness grammar for C6: `R` has the deliberately overlapping alternatives
`A` and `A B`; on input `"axy"` the first declared alternative wins. -/
def ctx6 : Ctx Unit :=
  { input := "axy",
    defs := fun n =>
      if n = "A" then
        { regex := some (fun s => match s.data with | 'a' :: _ => ["a"] | _ => []) }
      else if n = "B" then
        { regex := some (fun s => match s.data with | 'x' :: _ => ["x"] | _ => []) }
      else {} }

/-- The result of the first alternative `["A"]` of the C6 witness. -/
def seqRes6 : List Part × St Unit := (findConstituentseq ctx6 5 ["A"] st0).getD ([], st0)

theorem findConstituents_orderedChoice_witness :
    findConstituents ctx6 7 [["A"], ["A", "B"]] st0 = some (seqRes6.1, seqRes6.2) ∧
      ((seqRes6.1.map fun p => (p.name, p.startPos, p.endPos, p.value)), seqRes6.2.pos) =
        ([("A", 0, 1, "a")], 1) := by
  have h := (findConstituents_orderedChoice ctx6 5 ["A"] [["A", "B"]] st0 seqRes6.2
    seqRes6.1 rfl).1 (List.ne_nil_of_length_pos (by decide))
  exact ⟨h, rfl⟩

/-! ## C7: ignore propagation -/

/-- C7: in every branch of the constituent loop — one-or-more `+`,
zero-or-more `*`, optional `?`, and bare exactly-one — a constituent that
matches via a rule with `ignore = true` advances the parse state exactly as
a non-ignored one would (the loop continues from the state `st1` the match
produced, so its consumed span stays consumed), but its parts are excluded
from the accumulated child list, while a non-ignored match is appended to
it: all four branches route through the same `parts[0].Ignore` filter. -/
theorem seq_ignore_propagation {μ : Type} (ctx : Ctx μ) :
    (∀ (fuel : Nat) (cid : String) (rest : List String) (st st1 : St μ) (acc : List Part)
        (p : Part) (ps : List Part),
      strTakeEnd cid 1 = "+" →
      findMany ctx fuel (strDropEnd cid 1) st = some (p :: ps, st1) →
      (p.ignore = true →
        seqAux ctx (fuel + 1) (cid :: rest) st acc = seqAux ctx fuel rest st1 acc) ∧
      (p.ignore = false →
        seqAux ctx (fuel + 1) (cid :: rest) st acc =
          seqAux ctx fuel rest st1 (acc ++ p :: ps))) ∧
    (∀ (fuel : Nat) (cid : String) (rest : List String) (st st1 : St μ) (acc : List Part)
        (p : Part) (ps : List Part),
      strTakeEnd cid 1 = "*" →
      findMany ctx fuel (strDropEnd cid 1) st = some (p :: ps, st1) →
      (p.ignore = true →
        seqAux ctx (fuel + 1) (cid :: rest) st acc = seqAux ctx fuel rest st1 acc) ∧
      (p.ignore = false →
        seqAux ctx (fuel + 1) (cid :: rest) st acc =
          seqAux ctx fuel rest st1 (acc ++ p :: ps))) ∧
    (∀ (fuel : Nat) (cid : String) (rest : List String) (st st1 : St μ) (acc : List Part)
        (p : Part) (ps : List Part),
      strTakeEnd cid 1 = "?" →
      findOne ctx fuel (strDropEnd cid 1) st = some (p :: ps, st1) →
      (p.ignore = true →
        seqAux ctx (fuel + 1) (cid :: rest) st acc = seqAux ctx fuel rest st1 acc) ∧
      (p.ignore = false →
        seqAux ctx (fuel + 1) (cid :: rest) st acc =
          seqAux ctx fuel rest st1 (acc ++ p :: ps))) ∧
    (∀ (fuel : Nat) (cid : String) (rest : List String) (st st1 : St μ) (acc : List Part)
        (p : Part) (ps : List Part),
      strTakeEnd cid 1 ≠ "+" → strTakeEnd cid 1 ≠ "*" → strTakeEnd cid 1 ≠ "?" →
      findOne ctx fuel cid st = some (p :: ps, st1) →
      (p.ignore = true →
        seqAux ctx (fuel + 1) (cid :: rest) st acc = seqAux ctx fuel rest st1 acc) ∧
      (p.ignore = false →
        seqAux ctx (fuel + 1) (cid :: rest) st acc =
          seqAux ctx fuel rest st1 (acc ++ p :: ps))) := by
  refine ⟨?_, ?_, ?_, ?_⟩
  · intro fuel cid rest st st1 acc p ps hq h
    constructor
    · intro hig; simp [seqAux, hq, h, addNonIgnored, hig]
    · intro hig; simp [seqAux, hq, h, addNonIgnored, hig]
  · intro fuel cid rest st st1 acc p ps hq h
    constructor
    · intro hig; simp [seqAux, hq, h, addNonIgnored, hig]
    · intro hig; simp [seqAux, hq, h, addNonIgnored, hig]
  · intro fuel cid rest st st1 acc p ps hq h
    constructor
    · intro hig; simp [seqAux, hq, h, addNonIgnored, hig]
    · intro hig; simp [seqAux, hq, h, addNonIgnored, hig]
  · intro fuel cid rest st st1 acc p ps h1 h2 h3 h
    constructor
    · intro hig; simp [seqAux, h1, h2, h3, h, addNonIgnored, hig]
    · intro hig; simp [seqAux, h1, h2, h3, h, addNonIgnored, hig]

/-- Witness grammar for C7: `W` is an ignored whitespace-like terminal, `N`
an ordinary one, on input `"wnz"`. -/
def ctx7 : Ctx Unit :=
  { input := "wnz",
    defs := fun n =>
      if n = "W" then
        { ignore := true,
          regex := some (fun s => match s.data with | 'w' :: _ => ["w"] | _ => []) }
      else if n = "N" then
        { regex := some (fun s => match s.data with | 'n' :: _ => ["n"] | _ => []) }
      else {} }

theorem seq_ignore_propagation_witness :
    (findMany ctx7 3 "W" st0 = some ([Part.mk "W" 0 1 true "w" []], { st0 with pos := 1 }) ∧
      seqAux ctx7 4 ["W+", "N"] st0 [] = seqAux ctx7 3 ["N"] { st0 with pos := 1 } []) ∧
    (seqAux ctx7 4 ["W*", "N"] st0 [] = seqAux ctx7 3 ["N"] { st0 with pos := 1 } []) ∧
    (findOne ctx7 3 "N" { st0 with pos := 1 } =
        some ([Part.mk "N" 1 2 false "n" []], { st0 with pos := 2 }) ∧
      seqAux ctx7 4 ["N?"] { st0 with pos := 1 } [] =
        seqAux ctx7 3 [] { st0 with pos := 2 } ([] ++ [Part.mk "N" 1 2 false "n" []])) ∧
    (seqAux ctx7 4 ["W", "N"] st0 [] = seqAux ctx7 3 ["N"] { st0 with pos := 1 } [] ∧
      seqAux ctx7 4 ["N"] { st0 with pos := 1 } [] =
        seqAux ctx7 3 [] { st0 with pos := 2 } ([] ++ [Part.mk "N" 1 2 false "n" []])) := by
  refine ⟨⟨rfl, ?_⟩, ?_, ⟨rfl, ?_⟩, ?_, ?_⟩
  · exact ((seq_ignore_propagation ctx7).1 3 "W+" ["N"] st0 { st0 with pos := 1 } []
      (Part.mk "W" 0 1 true "w" []) [] (by decide) rfl).1 rfl
  · exact ((seq_ignore_propagation ctx7).2.1 3 "W*" ["N"] st0 { st0 with pos := 1 } []
      (Part.mk "W" 0 1 true "w" []) [] (by decide) rfl).1 rfl
  · exact ((seq_ignore_propagation ctx7).2.2.1 3 "N?" [] { st0 with pos := 1 }
      { st0 with pos := 2 } [] (Part.mk "N" 1 2 false "n" []) [] (by decide) rfl).2 rfl
  · exact ((seq_ignore_propagation ctx7).2.2.2 3 "W" ["N"] st0 { st0 with pos := 1 } []
      (Part.mk "W" 0 1 true "w" []) [] (by decide) (by decide) (by decide) rfl).1 rfl
  · exact ((seq_ignore_propagation ctx7).2.2.2 3 "N" [] { st0 with pos := 1 }
      { st0 with pos := 2 } [] (Part.mk "N" 1 2 false "n" []) []
      (by decide) (by decide) (by decide) rfl).2 rfl

/-! ## C8: validator rejection -/

/-- C8: when a terminal's regex matches but the validator rejects, `findOne`
returns no match — an ordinary local failure, so the enclosing ordered
choice goes on as with any other no-match — the cursor and line counter are
unchanged (only the log buffer grows), and the trace gains a line carrying
the rule name and current line number, extended by the validator's message
when one is supplied and generic otherwise. -/
theorem findOne_validatorReject {μ : Type} (ctx : Ctx μ) (fuel : Nat) (partName : String)
    (st : St μ) (rx : String → List String) (v : List String → Bool × String)
    (ms : List String) (msg : String)
    (hguard : ctx.input.length ≠ st.pos + 1)
    (hterm : (ctx.defs partName).constituents = [])
    (hrx : (ctx.defs partName).regex = some rx)
    (hms : rx (strDrop ctx.input st.pos) = ms)
    (hne : ms ≠ [])
    (hv : (ctx.defs partName).validateMatch = some v)
    (hrej : v ms = (false, msg)) :
    findOne ctx (fuel + 1) partName st = some ([], logInvalid st partName msg) ∧
      (logInvalid st partName msg).pos = st.pos ∧
      (logInvalid st partName msg).currentLine = st.currentLine ∧
      (logInvalid st partName msg).buffer =
        st.buffer ++ strTake st.indent st.indentLevel ++ "invalid " ++ partName ++
          " starting on line " ++ toString st.currentLine ++
          (if msg = "" then "" else ": " ++ msg) ++ "\n" := by
  have hec : (ctx.defs partName).constituents.isEmpty = true := by simp [hterm]
  have hmse : ms.isEmpty = false := by simp [List.isEmpty_eq_false, hne]
  refine ⟨?_, rfl, rfl, rfl⟩
  simp only [findOne, if_neg hguard, hec, if_true, hrx, hms, hmse, Bool.false_eq_true,
    if_false, hv, hrej]

/-- Witness grammar for C8: terminal `NUM` (regex `[0-9]+`) with a validator
rejecting values longer than two digits, on input `"150x"`. -/
def ctx8 : Ctx Unit :=
  { input := "150x",
    defs := fun n =>
      if n = "NUM" then
        { regex := some goFindDigits,
          validateMatch := some (fun ms =>
            if (ms.headD "").length ≤ 2 then (true, "") else (false, "too big")) }
      else {} }

theorem findOne_validatorReject_witness :
    goFindDigits (strDrop ctx8.input st0.pos) = ["150"] ∧
      findOne ctx8 3 "NUM" st0 = some ([], logInvalid st0 "NUM" "too big") ∧
      (logInvalid st0 "NUM" "too big").pos = st0.pos ∧
      (logInvalid st0 "NUM" "too big").currentLine = st0.currentLine ∧
      (logInvalid st0 "NUM" "too big").buffer = "invalid NUM starting on line 1: too big\n" := by
  have h := findOne_validatorReject ctx8 2 "NUM" st0 goFindDigits
    (fun ms => if (ms.headD "").length ≤ 2 then (true, "") else (false, "too big"))
    ["150"] "too big" (by decide) rfl rfl rfl (by decide) rfl rfl
  exact ⟨rfl, h.1, h.2.1, h.2.2.1, rfl⟩

/-! ## C9: a structurally successful but child-less alternative is no match -/

/-- Witness grammar for C9: `A = W` where `W` is an ignored terminal
consuming `w`; on input `"wx"` the alternative `["W"]` matches structurally
(and consumes input) yet contributes no visible child. -/
def ctx9 : Ctx Unit :=
  { input := "wx",
    defs := fun n =>
      if n = "W" then
        { ignore := true,
          regex := some (fun s => match s.data with | 'w' :: _ => ["w"] | _ => []) }
      else if n = "A" then { constituents := [["W"]] }
      else {} }

/-- C9: `findOne` on a non-terminal returns no match whenever the assembled
constituent list is empty, even though an alternative matched structurally.
Concretely, in the witness grammar `W` itself matches and consumes one
character, but `A` — whose single alternative `["W"]` succeeds with every
child ignored — is indistinguishable from a failure: no match, cursor
restored.  In general, whenever `findConstituents` hands back an empty
list, `findOne` returns no match with that state. -/
theorem findOne_childless_noMatch :
    (((findOne ctx9 6 "W" st0).map fun r => (r.1.length, r.2.pos)) = some (1, 1)) ∧
    (((findOne ctx9 8 "A" st0).map fun r => (r.1.length, r.2.pos)) = some (0, 0)) ∧
    (∀ (μ : Type) (ctx : Ctx μ) (fuel : Nat) (partName : String) (st st1 : St μ),
      ctx.input.length ≠ st.pos + 1 →
      (ctx.defs partName).constituents ≠ [] →
      findConstituents ctx fuel (ctx.defs partName).constituents st = some ([], st1) →
      findOne ctx (fuel + 1) partName st = some ([], st1)) :=
  ⟨rfl, rfl, fun _T ctx fuel partName st st1 hg hnt hfc =>
    findOne_noConstituents ctx fuel partName st st1 hg hnt hfc⟩

/-- The state in which the child-less run of `A` ends. -/
def st1c9 : St Unit :=
  ((findConstituents ctx9 7 (ctx9.defs "A").constituents st0).getD ([], st0)).2

theorem findOne_childless_noMatch_witness :
    ctx9.input.length ≠ st0.pos + 1 ∧ (ctx9.defs "A").constituents ≠ [] ∧
      findOne ctx9 8 "A" st0 = some ([], st1c9) := by
  have h := findOne_childless_noMatch.2.2 Unit ctx9 7 "A" st0 st1c9
    (by decide) (by decide) rfl
  exact ⟨by decide, by decide, h⟩

/-! ## C10: termination of the `findMany` loop

The Go loop `for findMore { ... }` exits only when `findOne` returns an
empty slice.  Divergence of the loop is rendered as fuel exhaustion at every
finite fuel (`findMany ... = none` for all fuel); termination as a concrete
fuel bound below which the loop completes. -/

/-- A terminal rule's `findOne` never runs out of fuel: every branch of the
regex path returns directly. -/
lemma findOne_terminal_isSome {μ : Type} (ctx : Ctx μ) (fuel : Nat) (partName : String)
    (st : St μ) (hterm : (ctx.defs partName).constituents = []) :
    findOne ctx (fuel + 1) partName st ≠ none := by
  have hec : (ctx.defs partName).constituents.isEmpty = true := by simp [hterm]
  simp only [findOne, hec, if_true]
  split
  · simp
  · split
    · split
      · simp
      · split
        · simp
        · simp
    · simp

/-- When a terminal rule's regex oracle only ever reports non-empty matched
text no longer than the searched string (as Go's regex engine does: the
matched text is a substring of the searched string), every successful
`findOne` strictly advances the cursor and keeps it within the input. -/
lemma findOne_terminal_advance {μ : Type} (ctx : Ctx μ) (fuel : Nat) (partName : String)
    (st st' : St μ) (ps : List Part) (rx : String → List String)
    (hterm : (ctx.defs partName).constituents = [])
    (hrx : (ctx.defs partName).regex = some rx)
    (hrun : ∀ s, rx s ≠ [] →
      0 < ((rx s).headD "").length ∧ ((rx s).headD "").length ≤ s.length)
    (h : findOne ctx (fuel + 1) partName st = some (ps, st'))
    (hne : ps ≠ []) :
    st.pos < st'.pos ∧ st'.pos ≤ ctx.input.length := by
  have hec : (ctx.defs partName).constituents.isEmpty = true := by simp [hterm]
  simp only [findOne, hec, if_true, hrx] at h
  by_cases hg : ctx.input.length = st.pos + 1
  · rw [if_pos hg] at h
    simp only [Option.some.injEq, Prod.mk.injEq] at h
    exact absurd h.1.symm hne
  · rw [if_neg hg] at h
    by_cases hm : (rx (strDrop ctx.input st.pos)).isEmpty
    · simp only [hm, if_true, Option.some.injEq, Prod.mk.injEq] at h
      exact absurd h.1.symm hne
    · simp only [hm, Bool.false_eq_true, if_false] at h
      have hrne : rx (strDrop ctx.input st.pos) ≠ [] := by
        simpa [List.isEmpty_eq_false] using hm
      have hlen := hrun (strDrop ctx.input st.pos) hrne
      rw [strDrop_length] at hlen
      split at h
      · simp only [Option.some.injEq, Prod.mk.injEq] at h
        have hp : st'.pos = st.pos +
            ((rx (strDrop ctx.input st.pos)).headD "").length := by
          rw [← h.2]
        omega
      · simp only [Option.some.injEq, Prod.mk.injEq] at h
        exact absurd h.1.symm hne

/-- Under the strict-advance condition, the `findMany` loop completes within
`input.length + 2 - pos` units of fuel. -/
lemma findMany_total_of_advance {μ : Type} (ctx : Ctx μ) (partName : String)
    (rx : String → List String)
    (hterm : (ctx.defs partName).constituents = [])
    (hrx : (ctx.defs partName).regex = some rx)
    (hrun : ∀ s, rx s ≠ [] →
      0 < ((rx s).headD "").length ∧ ((rx s).headD "").length ≤ s.length) :
    ∀ (f : Nat) (st : St μ), st.pos ≤ ctx.input.length →
      ctx.input.length + 2 - st.pos ≤ f → findMany ctx f partName st ≠ none := by
  intro f
  induction f with
  | zero => intro st hpos hf; omega
  | succ f' ih =>
    intro st hpos hf
    simp only [findMany]
    obtain ⟨g, rfl⟩ : ∃ g, f' = g + 1 := ⟨f' - 1, by omega⟩
    cases hfo : findOne ctx (g + 1) partName st with
    | none => exact absurd hfo (findOne_terminal_isSome ctx g partName st hterm)
    | some r =>
      obtain ⟨ps, st'⟩ := r
      by_cases hps : ps.isEmpty
      · simp [hps]
      · have hne : ps ≠ [] := fun hnil => hps (by simp [hnil])
        have hadv := findOne_terminal_advance ctx g partName st st' ps rx hterm hrx hrun hfo hne
        have hm := ih st' hadv.2 (by omega)
        simp only [hps, Bool.false_eq_true, if_false]
        cases hfm : findMany ctx (g + 1) partName st' with
        | none => exact absurd hfm hm
        | some r2 => simp [hfm]

/-- C10: the `findMany` repetition loop terminates exactly when successful
matches strictly advance the cursor.  First conjunct (divergence): if
`findOne` succeeds at state `st` without changing the state — a rule that
matches zero characters away from the end-of-input boundary — the loop
exhausts every finite fuel: its only exit is a failed match.  Second
conjunct (termination): for a terminal rule whose regex oracle only reports
non-empty matched text no longer than the searched string, every successful
match strictly advances, and the loop completes within fuel
`input.length + 2 - pos`. -/
theorem findMany_termination {μ : Type} (ctx : Ctx μ) (partName : String) :
    (∀ (ps : List Part) (st : St μ), ps ≠ [] →
      (∀ f, findOne ctx (f + 1) partName st = some (ps, st)) →
      ∀ f, findMany ctx f partName st = none) ∧
    (∀ rx, (ctx.defs partName).constituents = [] → (ctx.defs partName).regex = some rx →
      (∀ s, rx s ≠ [] →
        0 < ((rx s).headD "").length ∧ ((rx s).headD "").length ≤ s.length) →
      ∀ st : St μ, st.pos ≤ ctx.input.length →
      findMany ctx (ctx.input.length + 2 - st.pos) partName st ≠ none) := by
  constructor
  · intro ps st hne hfix f
    induction f with
    | zero => rfl
    | succ f' ih =>
      have hpse : ps.isEmpty = false := by simp [List.isEmpty_eq_false, hne]
      simp only [findMany]
      cases f' with
      | zero => simp [findOne]
      | succ g => rw [hfix g]; simp only [hpse, Bool.false_eq_true, if_false, ih]
  · intro rx hterm hrx hrun st hpos
    exact findMany_total_of_advance ctx partName rx hterm hrx hrun _ st hpos (le_refl _)

/-- Witness grammar for the divergence half of C10: terminal `E` whose regex
admits the empty match (as `[0-9]*` would on a non-digit), away from the
end-of-input boundary. -/
def ctx10a : Ctx Unit :=
  { input := "ab", defs := fun n => if n = "E" then { regex := some (fun _ => [""]) } else {} }

/-- The zero-width part produced by `E` at position 0. -/
def pE : Part := Part.mk "E" 0 0 false "" []

/-- Oracle for the termination half: matches exactly the first character of
the searched string (always strictly advancing). -/
def rxFirst : String → List String := fun s => if s.length = 0 then [] else [strTake s 1]

def ctx10b : Ctx Unit :=
  { input := "ab", defs := fun n => if n = "T" then { regex := some rxFirst } else {} }

theorem findMany_termination_witness :
    ([pE] : List Part) ≠ [] ∧
      findMany ctx10a 37 "E" st0 = none ∧
      findMany ctx10b (ctx10b.input.length + 2 - st0.pos) "T" st0 ≠ none := by
  refine ⟨List.cons_ne_nil _ _, ?_, ?_⟩
  · exact (findMany_termination ctx10a "E").1 [pE] st0 (List.cons_ne_nil _ _)
      (fun _ => rfl) 37
  · refine (findMany_termination ctx10b "T").2 rxFirst rfl rfl ?_ st0 (by decide)
    intro s h
    by_cases hz : s.length = 0
    · simp [rxFirst, hz] at h
    · have h1 : 1 ≤ s.length := by omega
      simp only [rxFirst, if_neg hz, List.headD_cons]
      rw [strTake_length, Nat.min_eq_left h1]
      exact ⟨by omega, h1⟩

end Dialects
